import Mathlib

/-!
Verification of the donor-record normalization and reconciliation engine of
the Olgam plasma-center data processor (`app.py`).

The engine functions `format_phone`, `process_name`, `process_data` (its
validation contract `REQUIRED_COLUMNS` and its deduplication stage),
`compare_dataframes`, `update_master_database` and `get_leads_for_upload`
are embedded below as executable Lean definitions.  Modelling conventions:

* a pandas cell is `Option String`; `none` models NaN / a missing value;
* a raw uploaded row is an association list from column name to cell;
* Python string operations (`lower`, `strip`, `capitalize`, splitting,
  regex character filters) are implemented on `List Char` by structural
  recursion, restricted to their ASCII behaviour, which is all the data
  model exercises;
* the external pandas date parser (`pd.to_datetime(..., errors="coerce")`)
  is a collaborator outside the engine; functions that need it take it as
  a parameter, and concrete examples instantiate it with an ISO-date
  parser `isoParse`;
* pandas `astype(str)` turns NaN into the string `"nan"`, pandas `isin`
  and `merge` treat NaN join values as equal to each other, and pandas
  `sort_values` places NaT last regardless of sort direction; the
  embedding reproduces these behaviours.
-/

namespace Olgam

/-- A pandas cell: `none` models NaN / a missing value. -/
abbrev Cell := Option String

/-- Model of Python `str.lower` (ASCII case folding). -/
def lowerStr (s : String) : String := String.mk (s.data.map Char.toLower)

/-- Drop leading and trailing whitespace from a character list. -/
def trimL (l : List Char) : List Char :=
  ((l.dropWhile Char.isWhitespace).reverse.dropWhile Char.isWhitespace).reverse

/-- Model of Python `str.strip`: drop leading and trailing whitespace. -/
def stripStr (s : String) : String := String.mk (trimL s.data)

/-- `format_phone` from `app.py`: on a non-null value keep only the digits
(the regex sub of non-digits), prepend a leading one when exactly 10 digits
remain, and when exactly 11 digits result format them as
`1(AAA) BBB-CCCC`; for any other digit count return the original value
unchanged.  Null input passes through. -/
def format_phone (phone : Cell) : Cell :=
  match phone with
  | none => none
  | some s =>
    let numbers0 := s.data.filter Char.isDigit
    let numbers := if numbers0.length = 10 then '1' :: numbers0 else numbers0
    if numbers.length ≠ 11 then some s
    else some ("1(" ++ String.mk ((numbers.drop 1).take 3) ++ ") "
      ++ String.mk ((numbers.drop 4).take 3) ++ "-" ++ String.mk (numbers.drop 7))

/-- Split a character list into whitespace-separated words
(model of Python `str.split()` with no arguments). -/
def wordsAux (acc : List Char) : List Char → List (List Char)
  | [] => if acc.isEmpty then [] else [acc.reverse]
  | c :: cs =>
    if c.isWhitespace then
      if acc.isEmpty then wordsAux [] cs else acc.reverse :: wordsAux [] cs
    else wordsAux (c :: acc) cs

/-- Model of Python `str.capitalize` applied to an already lower-cased
word: upper-case the first character. -/
def capitalizeL : List Char → List Char
  | [] => []
  | c :: cs => c.toUpper :: cs

/-- The per-part cleaning of `process_name`: split a name part on
whitespace, strip, lower-case and capitalize each word, and re-join the
words with single spaces. -/
def titleWords (s : String) : String :=
  String.intercalate " "
    ((wordsAux [] s.data).map (fun w =>
      String.mk (capitalizeL ((trimL w).map Char.toLower))))

/-- `process_name` from `app.py`: split on the first comma only (left part
last name, right part first name; no comma means everything is the first
name), title-case both parts word by word; null input yields two empty
strings. -/
def process_name (name : Cell) : String × String :=
  match name with
  | none => ("", "")
  | some s =>
    let pre := s.data.takeWhile (fun c => c != ',')
    let post := s.data.dropWhile (fun c => c != ',')
    match post with
    | [] => (titleWords (String.mk pre), "")
    | _ :: rest => (titleWords (String.mk rest), titleWords (String.mk pre))

/-- The denylist of placeholder e-mail addresses from `process_data`. -/
def invalid_emails : List String :=
  ["someone@plasmaworld.com", "someone@plasma.com", "some@plasmaworld.com",
   "someone@plasmaworld.om", "na@na.com", "someoneinplasma@gmail.com",
   "someoneinplasma@gmail.com"]

/-- The fixed required-column list of `app.py`.  Note the embedded tab
character in the donation-date column name. -/
def REQUIRED_COLUMNS : List String :=
  ["Facility", "Donor #", "Donor Name", "Donor E-mail", "Donor Account #",
   "Donor Phone", "Yield (ml)", "Gender", "Donation Date", "Month",
   "Hour Checked In", "Day Of The Week", "Age", "Check-In Time",
   "Check-Out Time (Adjusted)", "Visit mins. (Adjusted)", "Donor Address Line 1",
   "Donor Address Line 2", "City", "Zip Code", "Donor Status", "Qual. Status",
   "Last \tDonation Date", "Pure Plasma", "Target Volume"]

/-- The column-presence check of `validate_file`: the required columns
missing from the uploaded columns; the upload is rejected when this list
is nonempty, before any normalization runs. -/
def missing_columns (file_columns : List String) : List String :=
  REQUIRED_COLUMNS.filter (fun c => !(file_columns.contains c))

/-- One raw uploaded row: an association list from column name to cell. -/
abbrev RawRow := List (String × Cell)

/-- Read a column of a raw row. -/
def getCol (r : RawRow) (c : String) : Cell :=
  match r.find? (fun p => p.1 == c) with
  | some p => p.2
  | none => none

/-- The exact column name `process_data` reads the donation date from;
it contains a tab between the first and the second word. -/
def lastDonationCol : String := "Last \tDonation Date"

/-- Sort key for a parsed donation date: missing or unparseable dates
(NaT) sort as earliest. -/
def dateVal : Option Nat → Nat
  | none => 0
  | some d => d + 1

/-- Attach to each raw row its parsed donation date
(`pd.to_datetime` with coercion of errors to NaT); the date parser itself
is the external pandas collaborator, passed as a parameter. -/
def withDates (parse : String → Option Nat) (df : List RawRow) :
    List (RawRow × Option Nat) :=
  df.map (fun r => (r, (getCol r lastDonationCol).bind parse))

/-- The deduplication key of `process_data`: the `(Donor #, Facility)`
pair of a dated row. -/
def pairKeyOf (x : RawRow × Option Nat) : Cell × Cell :=
  (getCol x.1 "Donor #", getCol x.1 "Facility")

/-- Descending order on parsed donation dates, rows without a date last
(the order produced by `sort_values(..., ascending=False)` with NaT
placed last). -/
def dateDescR (a b : RawRow × Option Nat) : Prop := dateVal b.2 ≤ dateVal a.2

instance : DecidableRel dateDescR := fun a b => Nat.decLe (dateVal b.2) (dateVal a.2)

instance : IsTotal (RawRow × Option Nat) dateDescR :=
  ⟨fun a b => (Nat.le_total (dateVal b.2) (dateVal a.2)).imp id id⟩

instance : IsTrans (RawRow × Option Nat) dateDescR :=
  ⟨fun _ _ _ h1 h2 => Nat.le_trans h2 h1⟩

/-- `drop_duplicates(subset=[Donor #, Facility])`: keep the first row per
deduplication key, in list order. -/
def dropDupAux (seen : List (Cell × Cell)) : List (RawRow × Option Nat) → List (RawRow × Option Nat)
  | [] => []
  | x :: xs =>
    if pairKeyOf x ∈ seen then dropDupAux seen xs
    else x :: dropDupAux (pairKeyOf x :: seen) xs

/-- The deduplication stage of `process_data`: sort the dated rows by
donation date descending (dateless rows last) and keep the first row per
`(Donor #, Facility)` pair. -/
def process_data_dedup (parse : String → Option Nat) (df : List RawRow) :
    List (RawRow × Option Nat) :=
  dropDupAux [] (List.insertionSort dateDescR (withDates parse df))

/-- Build one processed record from a raw row, as the second half of
`process_data` does: copy the key columns, split and title-case the name,
lower-case the e-mail and null out denylisted placeholder addresses,
format the phone, and concatenate the two address lines. -/
structure ProcessedRecord where
  donorNum : Cell
  account : Cell
  zip : Cell
  status : Cell
  facility : Cell
  birthday : Cell
  donorFirst : Cell
  donorLast : Cell
  email : Cell
  phone : Cell
  address : Cell
deriving DecidableEq, Repr

def toProcessedRecord (r : RawRow) : ProcessedRecord :=
  let names := process_name (getCol r "Donor Name")
  let emailLower := (getCol r "Donor E-mail").map lowerStr
  { donorNum := getCol r "Donor #"
    account := getCol r "Donor Account #"
    zip := getCol r "Zip Code"
    status := getCol r "Donor Status"
    facility := getCol r "Facility"
    birthday := getCol r "DOB"
    donorFirst := some names.1
    donorLast := some names.2
    email :=
      match emailLower with
      | none => none
      | some e => if invalid_emails.contains e then none else some e
    phone := format_phone (getCol r "Donor Phone")
    address := some (stripStr (((getCol r "Donor Address Line 1").getD "")
      ++ " " ++ ((getCol r "Donor Address Line 2").getD ""))) }

/-- `process_data`: parse the donation dates, deduplicate by recency, and
build the processed records. -/
def process_data (parse : String → Option Nat) (df : List RawRow) :
    List ProcessedRecord :=
  (process_data_dedup parse df).map (fun x => toProcessedRecord x.1)

/-- One row of the master registry (worksheet layout:
`Donor #, Donor First, Donor Last, Donor E-mail, Donor Account #,
Donor Phone, Donor Address, Zip Code, Donor Status, Center`). -/
structure MasterRecord where
  donorNum : Cell
  donorFirst : Cell
  donorLast : Cell
  email : Cell
  account : Cell
  phone : Cell
  address : Cell
  zip : Cell
  status : Cell
  center : Cell
deriving DecidableEq, Repr

/-- pandas `astype(str)`: NaN stringifies to the literal string nan. -/
def astypeStr : Cell → String
  | none => "nan"
  | some s => s

/-- Composite key of a processed batch record:
`Donor # + underscore + Facility`; NaN propagates through the string
concatenation, so the key is null when either part is missing. -/
def compositeKeyP (r : ProcessedRecord) : Option String :=
  match r.donorNum, r.facility with
  | some d, some f => some (d ++ "_" ++ f)
  | _, _ => none

/-- Composite key of a master record; `compare_dataframes` first applies
`astype(str)` to the master `Donor #` column. -/
def compositeKeyM (m : MasterRecord) : Option String :=
  match m.center with
  | some c => some (astypeStr m.donorNum ++ "_" ++ c)
  | none => none

/-- The characters kept by the comparison regex of `standardize_value`:
lower-case letters, digits, at-sign and dot. -/
def keepChar (c : Char) : Bool :=
  ('a' ≤ c && c ≤ 'z') || ('0' ≤ c && c ≤ '9') || c == '@' || c == '.'

/-- `standardize_value` inside `compare_dataframes`: NaN becomes the empty
string; otherwise lower-case, strip, and remove every character that is
not a lower-case letter, a digit, an at-sign or a dot. -/
def standardize_value (x : Cell) : String :=
  match x with
  | none => ""
  | some s => String.mk ((stripStr (lowerStr s)).data.filter keepChar)

/-- The per-pair change mask of `compare_dataframes`: true when the
standardized e-mail, phone, address or facility/center of a joined
batch/master pair differ. -/
def updatedMask (r : ProcessedRecord) (m : MasterRecord) : Bool :=
  (standardize_value r.email != standardize_value m.email) ||
  (standardize_value r.phone != standardize_value m.phone) ||
  (standardize_value r.address != standardize_value m.address) ||
  (standardize_value r.facility != standardize_value m.center)

/-- The master composite-key column built by `compare_dataframes`. -/
def masterKeys (master : List MasterRecord) : List (Option String) :=
  master.map compositeKeyM

/-- `new_donors` in `compare_dataframes`: batch records whose composite
key is absent from the master keys. -/
def new_donors_of (processed : List ProcessedRecord) (master : List MasterRecord) :
    List ProcessedRecord :=
  processed.filter (fun r => !((masterKeys master).contains (compositeKeyP r)))

/-- `existing_donors` in `compare_dataframes`: batch records whose
composite key is present among the master keys. -/
def existing_donors_of (processed : List ProcessedRecord) (master : List MasterRecord) :
    List ProcessedRecord :=
  processed.filter (fun r => (masterKeys master).contains (compositeKeyP r))

/-- `comparison_df` in `compare_dataframes`: the left merge of the
existing donors with the master on the composite key. -/
def comparison_of (processed : List ProcessedRecord) (master : List MasterRecord) :
    List (ProcessedRecord × MasterRecord) :=
  (existing_donors_of processed master).flatMap
    (fun r => (master.filter (fun m => compositeKeyM m == compositeKeyP r)).map (fun m => (r, m)))

/-- The `Donor #` values selected by the update mask
(column `Donor #_new` of the masked `comparison_df`). -/
def mask_donor_nums_of (processed : List ProcessedRecord) (master : List MasterRecord) :
    List Cell :=
  ((comparison_of processed master).filter (fun rm => updatedMask rm.1 rm.2)).map
    (fun rm => rm.1.donorNum)

/-- `really_updated` (and the identically computed `updated_donors`) in
`compare_dataframes`: the existing donors whose `Donor #` occurs among the
donor numbers of the differing joined pairs — note the selection is by
`Donor #`, not by the composite key. -/
def really_updated_of (processed : List ProcessedRecord) (master : List MasterRecord) :
    List ProcessedRecord :=
  (existing_donors_of processed master).filter
    (fun r => (mask_donor_nums_of processed master).contains r.donorNum)

/-- `compare_dataframes`: returns
`(new_donors, updated_donors, really_updated)`; the last two are computed
by the same predicate. -/
def compare_dataframes (processed : List ProcessedRecord) (master : List MasterRecord) :
    List ProcessedRecord × List ProcessedRecord × List ProcessedRecord :=
  (new_donors_of processed master,
   really_updated_of processed master,
   really_updated_of processed master)

/-- The Facility-to-Center rename applied before appending a batch record
to the master registry. -/
def toMasterRow (r : ProcessedRecord) : MasterRecord :=
  { donorNum := r.donorNum, donorFirst := r.donorFirst, donorLast := r.donorLast,
    email := r.email, account := r.account, phone := r.phone, address := r.address,
    zip := r.zip, status := r.status, center := r.facility }

/-- `update_master_database`: drop every master row whose `Donor #` occurs
among the donor numbers of `really_updated` (the master `Donor #` column
was astype-str-ed by `compare_dataframes`), then append the updated rows
and the new rows with Facility renamed to Center, in the fixed canonical
column order. -/
def update_master_database (master : List MasterRecord)
    (new_donors really_updated : List ProcessedRecord) : List MasterRecord :=
  (if really_updated.isEmpty then master
   else master.filter (fun m =>
     !((really_updated.map (fun r => r.donorNum)).contains (some (astypeStr m.donorNum)))))
  ++ (if really_updated.isEmpty then [] else really_updated.map toMasterRow)
  ++ (if new_donors.isEmpty then [] else new_donors.map toMasterRow)

/-- The comparison used by `has_important_updates` inside
`get_leads_for_upload`: string-ify, lower-case and strip — with no
punctuation filtering; NaN becomes the empty string. -/
def lowerStrip : Cell → String
  | none => ""
  | some s => stripStr (lowerStr s)

/-- `has_important_updates`: a donor number absent from the master
`Donor #` column counts as new; otherwise the lower-cased, stripped phone
and e-mail are compared against the first master row carrying the same
donor number. -/
def has_important_updates (r : ProcessedRecord) (master : List MasterRecord) : Bool :=
  match r.donorNum with
  | none => true
  | some d =>
    match master.find? (fun m => astypeStr m.donorNum == d) with
    | none => true
    | some m =>
      (lowerStrip r.phone != lowerStrip m.phone) ||
      (lowerStrip r.email != lowerStrip m.email)

/-- `get_leads_for_upload`: all new donors unconditionally, plus the
really-updated records passing `has_important_updates`. -/
def get_leads_for_upload (new_donors really_updated : List ProcessedRecord)
    (master : List MasterRecord) : List ProcessedRecord :=
  new_donors ++ really_updated.filter (fun r => has_important_updates r master)

/-- Split a character list at every occurrence of a separator character. -/
def splitChar (c : Char) : List Char → List (List Char)
  | [] => [[]]
  | x :: xs =>
    if x == c then [] :: splitChar c xs
    else
      match splitChar c xs with
      | [] => [[x]]
      | h :: t => (x :: h) :: t

/-- Read a nonempty all-digit character list as a number. -/
def parseNatChars (l : List Char) : Option Nat :=
  if l.isEmpty || !(l.all Char.isDigit) then none
  else some (l.foldl (fun n c => n * 10 + (c.toNat - 48)) 0)

/-- Model of the external pandas date parser restricted to ISO
`YYYY-MM-DD` inputs (encoded as `y * 10000 + m * 100 + d`); used only to
instantiate the `parse` parameter in concrete examples. -/
def isoParse (s : String) : Option Nat :=
  match splitChar '-' s.data with
  | [y, m, d] =>
    match parseNatChars y, parseNatChars m, parseNatChars d with
    | some yn, some mn, some dn => some (yn * 10000 + mn * 100 + dn)
    | _, _, _ => none
  | _ => none

/-! ### Shared list-membership helpers -/

theorem contains_iff_mem {α} [BEq α] [LawfulBEq α] (l : List α) (a : α) :
    l.contains a = true ↔ a ∈ l := List.elem_iff

theorem takeWhile_append_cons {α} (p : α → Bool) (a : List α) (x : α) (b : List α)
    (ha : ∀ c ∈ a, p c = true) (hx : p x = false) :
    (a ++ x :: b).takeWhile p = a ∧ (a ++ x :: b).dropWhile p = x :: b := by
  induction a with
  | nil => simp [List.takeWhile_cons, List.dropWhile_cons, hx]
  | cons y ys ih =>
    have hy : p y = true := ha y (by simp)
    have ih2 := ih (fun c hc => ha c (by simp [hc]))
    simp [List.takeWhile_cons, List.dropWhile_cons, hy, ih2.1, ih2.2]

theorem takeWhile_all {α} (p : α → Bool) (l : List α) (h : ∀ c ∈ l, p c = true) :
    l.takeWhile p = l ∧ l.dropWhile p = [] := by
  induction l with
  | nil => simp
  | cons y ys ih =>
    have hy : p y = true := h y (by simp)
    have ih2 := ih (fun c hc => h c (by simp [hc]))
    simp [List.takeWhile_cons, List.dropWhile_cons, hy, ih2.1, ih2.2]

theorem string_mk_data (s : String) : String.mk s.data = s := rfl

/-! ### Concrete scenario data

Donor 100 visits two centers, `A` and `B`.  The batch changes the e-mail
of the `A` record only; the `B` record agrees with its master row in
every compared field. -/

def mA : MasterRecord :=
  { donorNum := some "100", donorFirst := some "An", donorLast := some "Ab",
    email := some "a@x.c", account := some "1", phone := some "1(555) 123-4567",
    address := some "1 Main", zip := some "7", status := some "ok", center := some "A" }

def mB : MasterRecord :=
  { donorNum := some "100", donorFirst := some "An", donorLast := some "Ab",
    email := some "b@x.c", account := some "1", phone := some "1(555) 123-4567",
    address := some "1 Main", zip := some "7", status := some "ok", center := some "B" }

/-- Batch record for donor 100 at facility A with a changed e-mail. -/
def pA : ProcessedRecord :=
  { donorNum := some "100", account := some "1", zip := some "7", status := some "ok",
    facility := some "A", birthday := none, donorFirst := some "An", donorLast := some "Ab",
    email := some "n@x.c", phone := some "1(555) 123-4567", address := some "1 Main" }

/-- The same batch record with the e-mail left unchanged. -/
def pA0 : ProcessedRecord := { pA with email := some "a@x.c" }

/-- Batch record for donor 100 at facility B, identical to `mB` in every
compared field. -/
def pB : ProcessedRecord :=
  { donorNum := some "100", account := some "1", zip := some "7", status := some "ok",
    facility := some "B", birthday := none, donorFirst := some "An", donorLast := some "Ab",
    email := some "b@x.c", phone := some "1(555) 123-4567", address := some "1 Main" }

/-- Master row for donor 200: phone stored with punctuation, old address. -/
def m5 : MasterRecord :=
  { donorNum := some "200", donorFirst := some "Jo", donorLast := some "Do",
    email := some "a@b.c", account := some "2", phone := some "(55) 123-4567",
    address := some "old a", zip := some "9", status := some "ok", center := some "A" }

/-- Batch record for donor 200: same digits in the phone but without
punctuation, same e-mail, new address. -/
def p5 : ProcessedRecord :=
  { donorNum := some "200", account := some "2", zip := some "9", status := some "ok",
    facility := some "A", birthday := none, donorFirst := some "Jo", donorLast := some "Do",
    email := some "a@b.c", phone := some "551234567", address := some "new a" }

/-- A normalized record whose donor number is missing (NaN). -/
def p6 : ProcessedRecord :=
  { donorNum := none, account := some "1", zip := some "2", status := some "s",
    facility := some "A", birthday := none, donorFirst := some "F", donorLast := some "L",
    email := some "e@f.g", phone := some "5", address := some "x" }

/-! ### Claim theorems -/

/-- C1: the update classification is not decided by a record's own
composite key.  With two matched batch records sharing donor number 100
at facilities A and B, record B — whose own compared fields are all
unchanged against its master row — is classified as updated exactly when
record A changed: `really_updated` is `[pA, pB]` when A's e-mail changed
and `[]` when it did not, so updating one of the two records changes the
classification of the other. -/
theorem c1_update_classification_not_independent :
    (compare_dataframes [pA, pB] [mA, mB]).2.2 = [pA, pB]
    ∧ (compare_dataframes [pA0, pB] [mA, mB]).2.2 = []
    ∧ updatedMask pB mB = false
    ∧ compositeKeyP pB = compositeKeyM mB
    ∧ pA.donorNum = pB.donorNum
    ∧ pA.facility ≠ pB.facility := by
  decide

/-- C2: the merge does not remove exactly the rows keyed in
`updated_strict`.  Updating donor 100 at center A removes the master row
of donor 100 at center B as well (removal is by `Donor #` alone), so a
master row that is neither new nor updated disappears from the merged
registry. -/
theorem c2_unrelated_master_row_removed :
    update_master_database [mA, mB] (compare_dataframes [pA] [mA, mB]).1
      (compare_dataframes [pA] [mA, mB]).2.2 = [toMasterRow pA]
    ∧ compositeKeyM mB ∉
        (update_master_database [mA, mB] (compare_dataframes [pA] [mA, mB]).1
          (compare_dataframes [pA] [mA, mB]).2.2).map compositeKeyM
    ∧ compositeKeyM mB ∉ ((compare_dataframes [pA] [mA, mB]).2.2.map compositeKeyP)
    ∧ compositeKeyM mB ∉ ((compare_dataframes [pA] [mA, mB]).1.map compositeKeyP) := by
  decide

/-- C4: membership in `updated_strict` is not equivalent to having a
standardized field difference.  Record pB is matched (key 100_B) and all
four of its standardized compared fields equal its master counterpart,
yet it is in `really_updated` because its sibling pA (same donor number,
facility A) differs. -/
theorem c4_strict_membership_without_field_difference :
    pB ∈ (compare_dataframes [pA, pB] [mA, mB]).2.2
    ∧ compositeKeyP pB = compositeKeyM mB
    ∧ standardize_value pB.email = standardize_value mB.email
    ∧ standardize_value pB.phone = standardize_value mB.phone
    ∧ standardize_value pB.address = standardize_value mB.address
    ∧ standardize_value pB.facility = standardize_value mB.center := by
  decide

/-- C5 counterexample: a matched record whose only standardized difference
is the address still appears in the leads extract, because
`get_leads_for_upload` compares the phone with only lower-casing and
trimming (no punctuation stripping): the batch phone 551234567 and the
master phone (55) 123-4567 standardize equal but lower-strip different. -/
theorem c5_address_only_update_in_leads :
    (compare_dataframes [p5] [m5]).2.2 = [p5]
    ∧ standardize_value p5.phone = standardize_value m5.phone
    ∧ standardize_value p5.email = standardize_value m5.email
    ∧ standardize_value p5.facility = standardize_value m5.center
    ∧ standardize_value p5.address ≠ standardize_value m5.address
    ∧ p5 ∈ get_leads_for_upload (compare_dataframes [p5] [m5]).1
        (compare_dataframes [p5] [m5]).2.2 [m5] := by
  decide

/-- C5 amended: a record is a lead iff it is new, or it is in
`really_updated` and its phone or e-mail — lower-cased and trimmed only,
punctuation retained — differs from the first master row carrying the
same donor number. -/
theorem c5_lead_iff_lower_strip_phone_or_email_differs
    (n ru : List ProcessedRecord) (master : List MasterRecord)
    (r : ProcessedRecord) (d : String) (m : MasterRecord)
    (hd : r.donorNum = some d)
    (hm : master.find? (fun mm => astypeStr mm.donorNum == d) = some m) :
    r ∈ get_leads_for_upload n ru master ↔
      r ∈ n ∨ (r ∈ ru ∧
        (lowerStrip r.phone ≠ lowerStrip m.phone ∨ lowerStrip r.email ≠ lowerStrip m.email)) := by
  unfold get_leads_for_upload
  rw [List.mem_append]
  apply or_congr Iff.rfl
  rw [List.mem_filter]
  apply and_congr Iff.rfl
  unfold has_important_updates
  rw [hd]
  simp only [hm]
  simp [bne_iff_ne]

theorem c5_lead_iff_lower_strip_phone_or_email_differs_witness :
    p5 ∈ get_leads_for_upload [] [p5] [m5] ↔
      p5 ∈ ([] : List ProcessedRecord) ∨ (p5 ∈ [p5] ∧
        (lowerStrip p5.phone ≠ lowerStrip m5.phone ∨ lowerStrip p5.email ≠ lowerStrip m5.email)) :=
  c5_lead_iff_lower_strip_phone_or_email_differs [] [p5] [m5] p5 "200" m5 rfl rfl

/-- C6 counterexample: a normalized record with a missing donor number is
not excluded from reconciliation — it lands in the `new` set. -/
theorem c6_keyless_record_in_new_set :
    p6.donorNum = none ∧ (compare_dataframes [p6] []).1 = [p6] := by
  decide

/-- C6 amended: a normalized record missing its donor number or facility
has a null composite key, which matches no master key (when every master
row has a center), so the record is classified as a new donor; no count
of excluded records exists. -/
theorem c6_keyless_records_classified_new
    (processed : List ProcessedRecord) (master : List MasterRecord)
    (r : ProcessedRecord) (hr : r ∈ processed)
    (hkey : r.donorNum = none ∨ r.facility = none)
    (hcenters : ∀ m ∈ master, m.center ≠ none) :
    r ∈ (compare_dataframes processed master).1 := by
  have hkeyP : compositeKeyP r = none := by
    rcases hkey with h | h
    · cases hf : r.facility <;> simp [compositeKeyP, h, hf]
    · cases hdn : r.donorNum <;> simp [compositeKeyP, h, hdn]
  show r ∈ new_donors_of processed master
  unfold new_donors_of
  refine List.mem_filter.mpr ⟨hr, ?_⟩
  rw [hkeyP]
  cases hcon : (masterKeys master).contains (none : Option String) with
  | false => rfl
  | true =>
    exfalso
    obtain ⟨m, hmem, hkeyM⟩ := List.mem_map.mp ((contains_iff_mem _ _).mp hcon)
    apply hcenters m hmem
    unfold compositeKeyM at hkeyM
    cases hc2 : m.center
    · rfl
    · rw [hc2] at hkeyM; simp at hkeyM

theorem c6_keyless_records_classified_new_witness :
    p6 ∈ (compare_dataframes [p6] [mA]).1 :=
  c6_keyless_records_classified_new [p6] [mA] p6 (by simp) (Or.inl rfl) (by decide)

/-- C3 counterexample: for a batch containing a record with a missing
donor number, the round trip is not idempotent — after merging into an
empty registry, the second reconciliation of the same batch still
classifies the record as new (its null key never matches the stored
`nan_A` key). -/
theorem c3_second_run_not_empty_for_keyless_record :
    (compare_dataframes [p6] []).1 = [p6]
    ∧ (compare_dataframes [p6]
        (update_master_database []
          (compare_dataframes [p6] []).1 (compare_dataframes [p6] []).2.2)).1 = [p6] := by
  decide

/-- C8: `format_phone` maps null to null; on a non-null value, with `ds`
the digits of the input: 10 digits get a leading one prepended and the
result is formatted as `1(AAA) BBB-CCCC` from digits 2-4, 5-7 and 8-11 of
the 11-digit string; 11 digits are formatted the same way; any other
digit count returns the original value unchanged. -/
theorem c8_format_phone_cases (s : String) (ds : List Char)
    (hds : ds = s.data.filter Char.isDigit) :
    format_phone none = none
    ∧ (ds.length = 10 →
        format_phone (some s) = some ("1(" ++ String.mk ((('1' :: ds).drop 1).take 3) ++ ") "
          ++ String.mk ((('1' :: ds).drop 4).take 3) ++ "-" ++ String.mk (('1' :: ds).drop 7)))
    ∧ (ds.length = 11 →
        format_phone (some s) = some ("1(" ++ String.mk ((ds.drop 1).take 3) ++ ") "
          ++ String.mk ((ds.drop 4).take 3) ++ "-" ++ String.mk (ds.drop 7)))
    ∧ (ds.length ≠ 10 → ds.length ≠ 11 → format_phone (some s) = some s) := by
  subst hds
  refine ⟨rfl, ?_, ?_, ?_⟩
  · intro h10
    simp [format_phone, h10]
  · intro h11
    have h10 : (s.data.filter Char.isDigit).length ≠ 10 := by omega
    simp [format_phone, h10, h11]
  · intro h10 h11
    simp [format_phone, h10, h11]

theorem c8_format_phone_cases_witness :
    ("555-123-4567".data.filter Char.isDigit).length = 10
    ∧ format_phone (some "555-123-4567") =
        some ("1(" ++ String.mk ((('1' :: "555-123-4567".data.filter Char.isDigit).drop 1).take 3) ++ ") "
          ++ String.mk ((('1' :: "555-123-4567".data.filter Char.isDigit).drop 4).take 3) ++ "-"
          ++ String.mk (('1' :: "555-123-4567".data.filter Char.isDigit).drop 7)) :=
  ⟨by decide, (c8_format_phone_cases "555-123-4567" _ rfl).2.1 (by decide)⟩

/-- C9: `process_name` maps null to two empty strings; a value with a
comma is split at the first comma, the left part becoming the last name
and the right part the first name, each cleaned word by word by
`titleWords`; a value without a comma becomes entirely the first name
with an empty last name; and `Smith, john` yields `(John, Smith)`. -/
theorem c9_process_name_cases (a b s : String)
    (ha : ',' ∉ a.data) (hs : ',' ∉ s.data) :
    process_name none = ("", "")
    ∧ process_name (some (a ++ "," ++ b)) = (titleWords b, titleWords a)
    ∧ process_name (some s) = (titleWords s, "")
    ∧ process_name (some "Smith, john") = ("John", "Smith") := by
  refine ⟨rfl, ?_, ?_, by decide⟩
  · have hdata : (a ++ "," ++ b).data = a.data ++ ',' :: b.data := by
      simp [String.data_append]
    have ha2 : ∀ c ∈ a.data, (c != ',') = true := by
      intro c hc
      rw [bne_iff_ne]
      intro h
      exact ha (h ▸ hc)
    have h := takeWhile_append_cons (fun c => c != ',') a.data ',' b.data ha2 (by simp)
    simp only [process_name, hdata, h.1, h.2, string_mk_data]
  · have hs2 : ∀ c ∈ s.data, (c != ',') = true := by
      intro c hc
      rw [bne_iff_ne]
      intro h
      exact hs (h ▸ hc)
    have h := takeWhile_all (fun c => c != ',') s.data hs2
    simp only [process_name, h.1, h.2, string_mk_data]

theorem c9_process_name_cases_witness :
    (',' ∉ "Smith".data)
    ∧ process_name (some ("Smith" ++ "," ++ " john")) = (titleWords " john", titleWords "Smith") :=
  ⟨by decide, (c9_process_name_cases "Smith" " john" "x" (by decide) (by decide)).2.1⟩

/-- C10: the required-column contract contains the literal column name
with an embedded tab between the two words; a batch whose donation-date
column is named with a plain space instead is rejected with exactly that
tab-containing column reported missing; and the deduplication stage reads
the donation date from the tab-containing column name. -/
theorem c10_tab_column_contract :
    lastDonationCol ∈ REQUIRED_COLUMNS
    ∧ "Last Donation Date" ∉ REQUIRED_COLUMNS
    ∧ lastDonationCol.data = ['L', 'a', 's', 't', ' ', '\t'] ++ "Donation Date".data
    ∧ missing_columns
        (REQUIRED_COLUMNS.map (fun c => if c = lastDonationCol then "Last Donation Date" else c))
        = [lastDonationCol]
    ∧ (∀ (parse : String → Option Nat) (r : RawRow),
        withDates parse [r] = [(r, (getCol r lastDonationCol).bind parse)]) := by
  refine ⟨by decide, by decide, by decide, by decide, fun parse r => rfl⟩

/-! ### Deduplication lemmas (for the recency tie-break) -/

theorem dropDupAux_subset (l : List (RawRow × Option Nat)) :
    ∀ seen x, x ∈ dropDupAux seen l → x ∈ l := by
  induction l with
  | nil => intro seen x hx; simp [dropDupAux] at hx
  | cons y ys ih =>
    intro seen x hx
    simp only [dropDupAux] at hx
    by_cases h : pairKeyOf y ∈ seen
    · rw [if_pos h] at hx
      exact List.mem_cons_of_mem y (ih seen x hx)
    · rw [if_neg h] at hx
      rcases List.mem_cons.mp hx with h1 | h1
      · exact h1 ▸ List.mem_cons_self y ys
      · exact List.mem_cons_of_mem y (ih _ x h1)

theorem dropDupAux_key_not_seen (l : List (RawRow × Option Nat)) :
    ∀ seen x, x ∈ dropDupAux seen l → pairKeyOf x ∉ seen := by
  induction l with
  | nil => intro seen x hx; simp [dropDupAux] at hx
  | cons y ys ih =>
    intro seen x hx
    simp only [dropDupAux] at hx
    by_cases h : pairKeyOf y ∈ seen
    · rw [if_pos h] at hx
      exact ih seen x hx
    · rw [if_neg h] at hx
      rcases List.mem_cons.mp hx with h1 | h1
      · rw [h1]; exact h
      · intro hc
        exact (ih _ x h1) (List.mem_cons_of_mem _ hc)

theorem dropDupAux_keys_nodup (l : List (RawRow × Option Nat)) :
    ∀ seen, ((dropDupAux seen l).map pairKeyOf).Nodup := by
  induction l with
  | nil => intro seen; simp [dropDupAux]
  | cons y ys ih =>
    intro seen
    simp only [dropDupAux]
    by_cases h : pairKeyOf y ∈ seen
    · rw [if_pos h]; exact ih seen
    · rw [if_neg h]
      rw [List.map_cons]
      refine List.nodup_cons.mpr ⟨?_, ih _⟩
      intro hc
      obtain ⟨x, hx, hkx⟩ := List.mem_map.mp hc
      exact (dropDupAux_key_not_seen ys _ x hx)
        (hkx ▸ List.mem_cons_self (pairKeyOf y) seen)

theorem dropDupAux_key_present (l : List (RawRow × Option Nat)) :
    ∀ seen c, c ∈ l.map pairKeyOf → c ∉ seen →
      c ∈ (dropDupAux seen l).map pairKeyOf := by
  induction l with
  | nil => intro seen c hc; simp at hc
  | cons y ys ih =>
    intro seen c hc hns
    simp only [dropDupAux]
    by_cases h : pairKeyOf y ∈ seen
    · rw [if_pos h]
      rcases List.mem_cons.mp hc with h1 | h1
      · exact absurd (h1 ▸ h) hns
      · exact ih seen c h1 hns
    · rw [if_neg h]
      rw [List.map_cons]
      rcases List.mem_cons.mp hc with h1 | h1
      · exact h1 ▸ List.mem_cons_self _ _
      · by_cases hcy : c = pairKeyOf y
        · exact hcy ▸ List.mem_cons_self _ _
        · refine List.mem_cons_of_mem _ (ih _ c h1 ?_)
          intro hmem
          rcases List.mem_cons.mp hmem with h2 | h2
          · exact hcy h2
          · exact hns h2

theorem dropDupAux_max (l : List (RawRow × Option Nat)) :
    l.Pairwise dateDescR → ∀ seen, ∀ x ∈ dropDupAux seen l, ∀ y ∈ l,
      pairKeyOf y = pairKeyOf x → dateVal y.2 ≤ dateVal x.2 := by
  induction l with
  | nil => intro _ seen x hx; simp [dropDupAux] at hx
  | cons z zs ih =>
    intro hp seen x hx y hy hkey
    obtain ⟨hz, hzs⟩ := List.pairwise_cons.mp hp
    simp only [dropDupAux] at hx
    by_cases h : pairKeyOf z ∈ seen
    · rw [if_pos h] at hx
      rcases List.mem_cons.mp hy with h1 | h1
      · exact absurd (hkey ▸ (h1 ▸ h : pairKeyOf y ∈ seen))
          (dropDupAux_key_not_seen zs seen x hx)
      · exact ih hzs seen x hx y h1 hkey
    · rw [if_neg h] at hx
      rcases List.mem_cons.mp hx with h1 | h1
      · subst h1
        rcases List.mem_cons.mp hy with h2 | h2
        · subst h2; exact le_refl _
        · exact hz y h2
      · rcases List.mem_cons.mp hy with h2 | h2
        · exact absurd (hkey ▸ (h2 ▸ List.mem_cons_self (pairKeyOf z) seen : pairKeyOf y ∈ _))
            (dropDupAux_key_not_seen zs (pairKeyOf z :: seen) x h1)
        · exact ih hzs _ x h1 y h2 hkey

theorem filter_key_length (l : List (RawRow × Option Nat)) :
    ∀ c, (l.map pairKeyOf).Nodup → c ∈ l.map pairKeyOf →
      (l.filter (fun x => decide (pairKeyOf x = c))).length = 1 := by
  induction l with
  | nil => intro c _ hc; simp at hc
  | cons z zs ih =>
    intro c hnd hc
    rw [List.map_cons] at hnd
    obtain ⟨hz, hzs⟩ := List.nodup_cons.mp hnd
    by_cases hcz : pairKeyOf z = c
    · have hnil : zs.filter (fun x => decide (pairKeyOf x = c)) = [] := by
        rw [List.filter_eq_nil_iff]
        intro x hx
        simp only [decide_eq_true_eq]
        intro heq
        exact hz (by
          rw [hcz, ← heq]
          exact List.mem_map.mpr ⟨x, hx, rfl⟩)
      simp [List.filter_cons, hcz, hnil]
    · have hcm : c ∈ zs.map pairKeyOf := by
        rcases List.mem_cons.mp hc with h1 | h1
        · exact absurd h1.symm hcz
        · exact h1
      have : (fun x => decide (pairKeyOf x = c)) z = false := by
        simp [hcz]
      simp only [List.filter_cons, this, if_neg]
      simp only [Bool.false_eq_true, if_false]
      exact ih c hzs hcm

/-- Raw row for donor 100 at facility A dated 2024-01-01. -/
def rawRow1 : RawRow :=
  [("Donor #", some "100"), ("Facility", some "A"), (lastDonationCol, some "2024-01-01")]

/-- Raw row for donor 100 at facility A dated 2024-03-01. -/
def rawRow2 : RawRow :=
  [("Donor #", some "100"), ("Facility", some "A"), (lastDonationCol, some "2024-03-01")]

/-- C7: after the deduplication stage of `process_data`, every
`(Donor #, Facility)` pair occurring in the dated batch is represented by
exactly one row, and that row carries a donation date at least as recent
as every row of the same pair (missing or unparseable dates counting as
earliest). -/
theorem c7_dedup_keeps_most_recent (parse : String → Option Nat) (df : List RawRow)
    (c : Cell × Cell) (hc : c ∈ (withDates parse df).map pairKeyOf) :
    ((process_data_dedup parse df).filter (fun x => decide (pairKeyOf x = c))).length = 1
    ∧ ∀ x ∈ process_data_dedup parse df, ∀ y ∈ withDates parse df,
        pairKeyOf y = pairKeyOf x → dateVal y.2 ≤ dateVal x.2 := by
  have hperm := List.perm_insertionSort dateDescR (withDates parse df)
  have hsorted := List.sorted_insertionSort dateDescR (withDates parse df)
  unfold process_data_dedup
  constructor
  · have hcs : c ∈ (List.insertionSort dateDescR (withDates parse df)).map pairKeyOf :=
      ((hperm.map pairKeyOf).mem_iff).mpr hc
    have hout : c ∈ (dropDupAux [] (List.insertionSort dateDescR (withDates parse df))).map pairKeyOf :=
      dropDupAux_key_present _ [] c hcs (by simp)
    exact filter_key_length _ c (dropDupAux_keys_nodup _ []) hout
  · intro x hx y hy hkey
    have hy2 : y ∈ List.insertionSort dateDescR (withDates parse df) :=
      hperm.mem_iff.mpr hy
    exact dropDupAux_max _ hsorted [] x hx y hy2 hkey

theorem c7_dedup_keeps_most_recent_witness :
    ((process_data_dedup isoParse [rawRow1, rawRow2]).filter
        (fun x => decide (pairKeyOf x = (some "100", some "A")))).length = 1
    ∧ (∀ x ∈ process_data_dedup isoParse [rawRow1, rawRow2],
        ∀ y ∈ withDates isoParse [rawRow1, rawRow2],
          pairKeyOf y = pairKeyOf x → dateVal y.2 ≤ dateVal x.2)
    ∧ process_data_dedup isoParse [rawRow1, rawRow2] = [(rawRow2, some 20240301)] :=
  ⟨(c7_dedup_keeps_most_recent isoParse [rawRow1, rawRow2] (some "100", some "A") (by decide)).1,
   (c7_dedup_keeps_most_recent isoParse [rawRow1, rawRow2] (some "100", some "A") (by decide)).2,
   by decide⟩

/-! ### Round-trip idempotence (C3) -/

/-- A string free of the composite-key separator character. -/
def cleanStr (s : String) : Bool := !(s.data.contains '_')

/-- A batch record whose donor number and facility are both present and
free of the composite-key separator. -/
def goodRec (r : ProcessedRecord) : Bool :=
  match r.donorNum, r.facility with
  | some d, some f => cleanStr d && cleanStr f
  | _, _ => false

/-- A master row whose stringified donor number and center (when present)
are free of the composite-key separator. -/
def goodMaster (m : MasterRecord) : Bool :=
  cleanStr (astypeStr m.donorNum) &&
    (match m.center with
     | none => true
     | some c => cleanStr c)

theorem cleanStr_iff (s : String) : cleanStr s = true ↔ '_' ∉ s.data := by
  unfold cleanStr
  constructor
  · intro h hm
    rw [(contains_iff_mem _ _).mpr hm] at h
    simp at h
  · intro h
    cases hcc : s.data.contains '_'
    · rfl
    · exact absurd ((contains_iff_mem _ _).mp hcc) h

theorem goodRec_elim {r : ProcessedRecord} (h : goodRec r = true) :
    ∃ d f, r.donorNum = some d ∧ r.facility = some f
      ∧ cleanStr d = true ∧ cleanStr f = true := by
  unfold goodRec at h
  cases hdn : r.donorNum with
  | none =>
    rw [hdn] at h
    cases hfac : r.facility <;> rw [hfac] at h <;> simp at h
  | some d =>
    cases hfac : r.facility with
    | none => rw [hdn, hfac] at h; simp at h
    | some f =>
      rw [hdn, hfac] at h
      rw [Bool.and_eq_true] at h
      exact ⟨d, f, rfl, rfl, h.1, h.2⟩

theorem goodMaster_elim {m : MasterRecord} (h : goodMaster m = true) :
    cleanStr (astypeStr m.donorNum) = true
      ∧ ∀ c, m.center = some c → cleanStr c = true := by
  unfold goodMaster at h
  rw [Bool.and_eq_true] at h
  obtain ⟨h1, h2⟩ := h
  refine ⟨h1, fun c hc => ?_⟩
  rw [hc] at h2
  exact h2

theorem underscore_split_inj : ∀ (a a2 b b2 : List Char), '_' ∉ a → '_' ∉ a2 →
    a ++ '_' :: b = a2 ++ '_' :: b2 → a = a2 ∧ b = b2 := by
  intro a
  induction a with
  | nil =>
    intro a2 b b2 _ ha2 h
    cases a2 with
    | nil => simpa using h
    | cons x xs =>
      exfalso
      simp only [List.nil_append, List.cons_append, List.cons.injEq] at h
      exact ha2 (List.mem_cons.mpr (Or.inl h.1))
  | cons y ys ih =>
    intro a2 b b2 ha ha2 h
    cases a2 with
    | nil =>
      exfalso
      simp only [List.nil_append, List.cons_append, List.cons.injEq] at h
      exact ha (List.mem_cons.mpr (Or.inl h.1.symm))
    | cons x xs =>
      simp only [List.cons_append, List.cons.injEq] at h
      obtain ⟨hyx, hrest⟩ := h
      have ha' : '_' ∉ ys := fun hmm => ha (List.mem_cons_of_mem _ hmm)
      have ha2' : '_' ∉ xs := fun hmm => ha2 (List.mem_cons_of_mem _ hmm)
      obtain ⟨h1, h2⟩ := ih xs b b2 ha' ha2' hrest
      exact ⟨by rw [hyx, h1], h2⟩

theorem key_components_eq {d f d2 f2 : String}
    (hd : cleanStr d = true) (hd2 : cleanStr d2 = true)
    (h : d ++ "_" ++ f = d2 ++ "_" ++ f2) : d = d2 ∧ f = f2 := by
  have hdata : d.data ++ '_' :: f.data = d2.data ++ '_' :: f2.data := by
    have h2 := congrArg String.data h
    simpa [String.data_append] using h2
  obtain ⟨h1, h2⟩ := underscore_split_inj d.data d2.data f.data f2.data
    ((cleanStr_iff d).mp hd) ((cleanStr_iff d2).mp hd2) hdata
  exact ⟨String.ext h1, String.ext h2⟩

theorem compositeKeyP_eq {r : ProcessedRecord} {d f : String}
    (hdn : r.donorNum = some d) (hfac : r.facility = some f) :
    compositeKeyP r = some (d ++ "_" ++ f) := by
  unfold compositeKeyP
  rw [hdn, hfac]

theorem compositeKeyM_toMasterRow {r : ProcessedRecord} {d f : String}
    (hdn : r.donorNum = some d) (hfac : r.facility = some f) :
    compositeKeyM (toMasterRow r) = some (d ++ "_" ++ f) := by
  simp [compositeKeyM, toMasterRow, astypeStr, hdn, hfac]

theorem compositeKeyM_eq_key {m : MasterRecord} {d f : String}
    (hdm : cleanStr (astypeStr m.donorNum) = true)
    (hcm : ∀ c, m.center = some c → cleanStr c = true)
    (hd : cleanStr d = true)
    (h : compositeKeyM m = some (d ++ "_" ++ f)) :
    astypeStr m.donorNum = d ∧ m.center = some f := by
  unfold compositeKeyM at h
  cases hc : m.center with
  | none => rw [hc] at h; simp at h
  | some c =>
    rw [hc] at h
    have heq : astypeStr m.donorNum ++ "_" ++ c = d ++ "_" ++ f := by
      simpa using h
    obtain ⟨h1, h2⟩ := key_components_eq (hcm c hc ▸ hdm) hd heq
    exact ⟨h1, by rw [h2]⟩

theorem mem_existing_iff {batch : List ProcessedRecord} {master : List MasterRecord}
    {r : ProcessedRecord} :
    r ∈ existing_donors_of batch master ↔
      r ∈ batch ∧ compositeKeyP r ∈ masterKeys master := by
  unfold existing_donors_of
  rw [List.mem_filter]
  exact and_congr Iff.rfl (contains_iff_mem _ _)

theorem mem_new_iff {batch : List ProcessedRecord} {master : List MasterRecord}
    {r : ProcessedRecord} :
    r ∈ new_donors_of batch master ↔
      r ∈ batch ∧ compositeKeyP r ∉ masterKeys master := by
  unfold new_donors_of
  rw [List.mem_filter]
  apply and_congr Iff.rfl
  constructor
  · intro h hmm
    rw [(contains_iff_mem _ _).mpr hmm] at h
    simp at h
  · intro h
    cases hcc : (masterKeys master).contains (compositeKeyP r)
    · rfl
    · exact absurd ((contains_iff_mem _ _).mp hcc) h

theorem mem_really_updated_iff {batch : List ProcessedRecord} {master : List MasterRecord}
    {r : ProcessedRecord} :
    r ∈ really_updated_of batch master ↔
      r ∈ existing_donors_of batch master
        ∧ r.donorNum ∈ mask_donor_nums_of batch master := by
  unfold really_updated_of
  rw [List.mem_filter]
  exact and_congr Iff.rfl (contains_iff_mem _ _)

theorem mem_comparison_iff {batch : List ProcessedRecord} {master : List MasterRecord}
    {p : ProcessedRecord × MasterRecord} :
    p ∈ comparison_of batch master ↔
      p.1 ∈ existing_donors_of batch master ∧ p.2 ∈ master
        ∧ compositeKeyM p.2 = compositeKeyP p.1 := by
  unfold comparison_of
  rw [List.mem_flatMap]
  constructor
  · rintro ⟨r, hr, hp⟩
    obtain ⟨m, hm, hpe⟩ := List.mem_map.mp hp
    obtain ⟨hmm, hmk⟩ := List.mem_filter.mp hm
    subst hpe
    exact ⟨hr, hmm, beq_iff_eq.mp hmk⟩
  · rintro ⟨h1, h2, h3⟩
    exact ⟨p.1, h1, List.mem_map.mpr ⟨p.2, List.mem_filter.mpr ⟨h2, beq_iff_eq.mpr h3⟩, rfl⟩⟩

theorem mem_mask_iff {batch : List ProcessedRecord} {master : List MasterRecord}
    {x : Cell} :
    x ∈ mask_donor_nums_of batch master ↔
      ∃ r m, r ∈ existing_donors_of batch master ∧ m ∈ master
        ∧ compositeKeyM m = compositeKeyP r ∧ updatedMask r m = true
        ∧ r.donorNum = x := by
  unfold mask_donor_nums_of
  rw [List.mem_map]
  constructor
  · rintro ⟨⟨r, m⟩, hf, hx⟩
    obtain ⟨hc, hmask⟩ := List.mem_filter.mp hf
    obtain ⟨h1, h2, h3⟩ := mem_comparison_iff.mp hc
    exact ⟨r, m, h1, h2, h3, hmask, hx⟩
  · rintro ⟨r, m, h1, h2, h3, hmask, hx⟩
    exact ⟨(r, m), List.mem_filter.mpr ⟨mem_comparison_iff.mpr ⟨h1, h2, h3⟩, hmask⟩, hx⟩

theorem toMaster_ru_mem_update {master : List MasterRecord}
    {nd ru : List ProcessedRecord} {u : ProcessedRecord} (hu : u ∈ ru) :
    toMasterRow u ∈ update_master_database master nd ru := by
  have hne : ru.isEmpty = false := by
    cases hcc : ru.isEmpty
    · rfl
    · rw [List.isEmpty_iff.mp hcc] at hu
      simp at hu
  have hpart : toMasterRow u ∈ (if ru.isEmpty then [] else ru.map toMasterRow) := by
    rw [hne, if_neg (by simp)]
    exact List.mem_map.mpr ⟨u, hu, rfl⟩
  unfold update_master_database
  exact List.mem_append.mpr (Or.inl (List.mem_append.mpr (Or.inr hpart)))

theorem toMaster_nd_mem_update {master : List MasterRecord}
    {nd ru : List ProcessedRecord} {u : ProcessedRecord} (hu : u ∈ nd) :
    toMasterRow u ∈ update_master_database master nd ru := by
  have hne : nd.isEmpty = false := by
    cases hcc : nd.isEmpty
    · rfl
    · rw [List.isEmpty_iff.mp hcc] at hu
      simp at hu
  have hpart : toMasterRow u ∈ (if nd.isEmpty then [] else nd.map toMasterRow) := by
    rw [hne, if_neg (by simp)]
    exact List.mem_map.mpr ⟨u, hu, rfl⟩
  unfold update_master_database
  exact List.mem_append.mpr (Or.inr hpart)

theorem kept_mem_update {master : List MasterRecord}
    {nd ru : List ProcessedRecord} {m : MasterRecord} (hmem : m ∈ master)
    (hnr : ∀ u ∈ ru, u.donorNum ≠ some (astypeStr m.donorNum)) :
    m ∈ update_master_database master nd ru := by
  have hpart : m ∈ (if ru.isEmpty then master
      else master.filter (fun mm =>
        !((ru.map (fun r => r.donorNum)).contains (some (astypeStr mm.donorNum))))) := by
    by_cases he : ru.isEmpty = true
    · rw [if_pos he]; exact hmem
    · rw [if_neg he]
      refine List.mem_filter.mpr ⟨hmem, ?_⟩
      cases hcon : (ru.map (fun r => r.donorNum)).contains (some (astypeStr m.donorNum))
      · rfl
      · exfalso
        obtain ⟨u, hu, he2⟩ := List.mem_map.mp ((contains_iff_mem _ _).mp hcon)
        exact hnr u hu he2
  unfold update_master_database
  exact List.mem_append.mpr (Or.inl (List.mem_append.mpr (Or.inl hpart)))

theorem mem_update_master_elim {master : List MasterRecord}
    {nd ru : List ProcessedRecord} {x : MasterRecord}
    (hx : x ∈ update_master_database master nd ru) :
    (x ∈ master ∧ ∀ u ∈ ru, u.donorNum ≠ some (astypeStr x.donorNum))
    ∨ (∃ u ∈ ru, x = toMasterRow u) ∨ (∃ u ∈ nd, x = toMasterRow u) := by
  unfold update_master_database at hx
  rcases List.mem_append.mp hx with h1 | h1
  · rcases List.mem_append.mp h1 with h2 | h2
    · by_cases he : ru.isEmpty = true
      · rw [if_pos he] at h2
        refine Or.inl ⟨h2, fun u hu => ?_⟩
        rw [List.isEmpty_iff.mp he] at hu
        simp at hu
      · rw [if_neg he] at h2
        obtain ⟨hmm, hflt⟩ := List.mem_filter.mp h2
        refine Or.inl ⟨hmm, fun u hu heq => ?_⟩
        rw [(contains_iff_mem _ _).mpr (List.mem_map.mpr ⟨u, hu, heq⟩)] at hflt
        simp at hflt
    · by_cases he : ru.isEmpty = true
      · rw [if_pos he] at h2; simp at h2
      · rw [if_neg he] at h2
        obtain ⟨u, hu, he2⟩ := List.mem_map.mp h2
        exact Or.inr (Or.inl ⟨u, hu, he2.symm⟩)
  · by_cases he : nd.isEmpty = true
    · rw [if_pos he] at h1; simp at h1
    · rw [if_neg he] at h1
      obtain ⟨u, hu, he2⟩ := List.mem_map.mp h1
      exact Or.inr (Or.inr ⟨u, hu, he2.symm⟩)

theorem updatedMask_toMasterRow_self (r : ProcessedRecord) :
    updatedMask r (toMasterRow r) = false := by
  simp [updatedMask, toMasterRow]

theorem ru_subset_batch {batch : List ProcessedRecord} {master : List MasterRecord}
    {u : ProcessedRecord} (hu : u ∈ really_updated_of batch master) : u ∈ batch :=
  List.mem_of_mem_filter (List.mem_of_mem_filter hu)

theorem nd_subset_batch {batch : List ProcessedRecord} {master : List MasterRecord}
    {u : ProcessedRecord} (hu : u ∈ new_donors_of batch master) : u ∈ batch :=
  List.mem_of_mem_filter hu

theorem round_trip_new_nil (batch : List ProcessedRecord) (master : List MasterRecord)
    (hb : ∀ r ∈ batch, goodRec r = true)
    (hm : ∀ m ∈ master, goodMaster m = true) :
    new_donors_of batch
      (update_master_database master (new_donors_of batch master)
        (really_updated_of batch master)) = [] := by
  refine List.filter_eq_nil_iff.mpr ?_
  intro r hr hcontra
  obtain ⟨d, f, hdn, hfac, hcd, hcf⟩ := goodRec_elim (hb r hr)
  have hkeyr : compositeKeyP r = some (d ++ "_" ++ f) := compositeKeyP_eq hdn hfac
  have hkey_mem : compositeKeyP r ∈ masterKeys
      (update_master_database master (new_donors_of batch master)
        (really_updated_of batch master)) := by
    by_cases hex : compositeKeyP r ∈ masterKeys master
    · have hrE : r ∈ existing_donors_of batch master := mem_existing_iff.mpr ⟨hr, hex⟩
      by_cases hru : r.donorNum ∈ mask_donor_nums_of batch master
      · have hrRU : r ∈ really_updated_of batch master :=
          mem_really_updated_iff.mpr ⟨hrE, hru⟩
        exact List.mem_map.mpr ⟨toMasterRow r, toMaster_ru_mem_update hrRU,
          by rw [compositeKeyM_toMasterRow hdn hfac, hkeyr]⟩
      · obtain ⟨mrow, hmrow, hkeym⟩ := List.mem_map.mp hex
        have hmg := goodMaster_elim (hm mrow hmrow)
        have hcomp := compositeKeyM_eq_key hmg.1 hmg.2 hcd (hkeym.trans hkeyr)
        have hkept : mrow ∈ update_master_database master (new_donors_of batch master)
            (really_updated_of batch master) := by
          apply kept_mem_update hmrow
          intro u hu hequ
          obtain ⟨_, humask⟩ := mem_really_updated_iff.mp hu
          apply hru
          rw [hdn, ← hcomp.1, ← hequ]
          exact humask
        exact List.mem_map.mpr ⟨mrow, hkept, hkeym⟩
    · have hrN : r ∈ new_donors_of batch master := mem_new_iff.mpr ⟨hr, hex⟩
      exact List.mem_map.mpr ⟨toMasterRow r, toMaster_nd_mem_update hrN,
        by rw [compositeKeyM_toMasterRow hdn hfac, hkeyr]⟩
  rw [(contains_iff_mem _ _).mpr hkey_mem] at hcontra
  simp at hcontra

theorem round_trip_mask_nil (batch : List ProcessedRecord) (master : List MasterRecord)
    (hb : ∀ r ∈ batch, goodRec r = true)
    (hk : (batch.map compositeKeyP).Nodup)
    (hm : ∀ m ∈ master, goodMaster m = true) :
    mask_donor_nums_of batch
      (update_master_database master (new_donors_of batch master)
        (really_updated_of batch master)) = [] := by
  unfold mask_donor_nums_of
  rw [List.map_eq_nil_iff, List.filter_eq_nil_iff]
  intro p hp hmask
  obtain ⟨hpE, hpM, hpkey⟩ := mem_comparison_iff.mp hp
  have hr : p.1 ∈ batch := (mem_existing_iff.mp hpE).1
  obtain ⟨d, f, hdn, hfac, hcd, hcf⟩ := goodRec_elim (hb p.1 hr)
  have hkeyr : compositeKeyP p.1 = some (d ++ "_" ++ f) := compositeKeyP_eq hdn hfac
  rcases mem_update_master_elim hpM with ⟨hmm, hnr⟩ | ⟨u, hu, hxe⟩ | ⟨u, hu, hxe⟩
  · -- p.2 is a retained master row: p.1 would have been updated in round
    -- one, so p.2 could not have been retained
    have hmg := goodMaster_elim (hm p.2 hmm)
    have hcomp := compositeKeyM_eq_key hmg.1 hmg.2 hcd (hpkey.trans hkeyr)
    have hE1 : p.1 ∈ existing_donors_of batch master := mem_existing_iff.mpr ⟨hr,
      List.mem_map.mpr ⟨p.2, hmm, hpkey⟩⟩
    have hmask1 : p.1.donorNum ∈ mask_donor_nums_of batch master :=
      mem_mask_iff.mpr ⟨p.1, p.2, hE1, hmm, hpkey, hmask, rfl⟩
    have hRU1 : p.1 ∈ really_updated_of batch master :=
      mem_really_updated_iff.mpr ⟨hE1, hmask1⟩
    exact hnr p.1 hRU1 (by rw [hdn, hcomp.1])
  · -- p.2 is an appended really-updated row: it must be p.1 itself
    have hub : u ∈ batch := ru_subset_batch hu
    obtain ⟨d2, f2, hdn2, hfac2, _, _⟩ := goodRec_elim (hb u hub)
    have hum : compositeKeyM (toMasterRow u) = compositeKeyP u := by
      rw [compositeKeyM_toMasterRow hdn2 hfac2, compositeKeyP_eq hdn2 hfac2]
    have hkeq : compositeKeyP u = compositeKeyP p.1 := by
      rw [← hum, ← hxe]
      exact hpkey
    have hup : u = p.1 := List.inj_on_of_nodup_map hk hub hr hkeq
    rw [hxe, hup, updatedMask_toMasterRow_self] at hmask
    simp at hmask
  · -- p.2 is an appended new row: it must be p.1 itself
    have hub : u ∈ batch := nd_subset_batch hu
    obtain ⟨d2, f2, hdn2, hfac2, _, _⟩ := goodRec_elim (hb u hub)
    have hum : compositeKeyM (toMasterRow u) = compositeKeyP u := by
      rw [compositeKeyM_toMasterRow hdn2 hfac2, compositeKeyP_eq hdn2 hfac2]
    have hkeq : compositeKeyP u = compositeKeyP p.1 := by
      rw [← hum, ← hxe]
      exact hpkey
    have hup : u = p.1 := List.inj_on_of_nodup_map hk hub hr hkeq
    rw [hxe, hup, updatedMask_toMasterRow_self] at hmask
    simp at hmask

theorem round_trip_ru_nil (batch : List ProcessedRecord) (master : List MasterRecord)
    (hb : ∀ r ∈ batch, goodRec r = true)
    (hk : (batch.map compositeKeyP).Nodup)
    (hm : ∀ m ∈ master, goodMaster m = true) :
    really_updated_of batch
      (update_master_database master (new_donors_of batch master)
        (really_updated_of batch master)) = [] := by
  refine List.filter_eq_nil_iff.mpr ?_
  intro r hr hcon
  rw [round_trip_mask_nil batch master hb hk hm] at hcon
  simp at hcon

/-- C3 amended: for a batch of normalized records whose donor numbers and
facilities are all present and free of the underscore separator, with
pairwise distinct composite keys, reconciled against a registry whose
stringified donor numbers and centers are also separator-free, merging the
reconciliation output and re-reconciling the same batch against the
merged registry yields an empty new set and an empty updated-strict set
(in particular for an empty initial registry). -/
theorem c3_round_trip_idempotent
    (batch : List ProcessedRecord) (master : List MasterRecord)
    (hb : ∀ r ∈ batch, goodRec r = true)
    (hk : (batch.map compositeKeyP).Nodup)
    (hm : ∀ m ∈ master, goodMaster m = true) :
    (compare_dataframes batch
      (update_master_database master (compare_dataframes batch master).1
        (compare_dataframes batch master).2.2)).1 = []
    ∧ (compare_dataframes batch
      (update_master_database master (compare_dataframes batch master).1
        (compare_dataframes batch master).2.2)).2.2 = [] :=
  ⟨round_trip_new_nil batch master hb hm, round_trip_ru_nil batch master hb hk hm⟩

theorem c3_round_trip_idempotent_witness :
    (compare_dataframes [pA]
      (update_master_database [] (compare_dataframes [pA] []).1
        (compare_dataframes [pA] []).2.2)).1 = []
    ∧ (compare_dataframes [pA]
      (update_master_database [] (compare_dataframes [pA] []).1
        (compare_dataframes [pA] []).2.2)).2.2 = [] :=
  c3_round_trip_idempotent [pA] [] (by decide) (by decide) (by decide)

end Olgam
